import Mathlib

/-!
Verification development for the mydns blocklisted DNS stub resolver.

The Go sources are embedded shallowly: pure functions become Lean functions,
the mutable trie and set become functional updates, fallible operations
return Except or Option, and the per-request handler becomes a function from
its request and collaborator inputs to the message it writes back.
-/

namespace MyDNS

/-- ASCII model of the Go function strings.ToLower on one character:
uppercase ASCII letters shift to lowercase, all other characters are kept.
(The Go original also folds non-ASCII Unicode; the domain names this program
handles are ASCII.) -/
def lowerChar (c : Char) : Char :=
  if 65 ≤ c.toNat ∧ c.toNat ≤ 90 then Char.ofNat (c.toNat + 32) else c

/-- Model of strings.ToLower, character by character. -/
def lowerString (s : String) : String := ⟨s.data.map lowerChar⟩

/-- Splits a character list at every dot, as the label splitting of
dns.SplitDomainName does (escape sequences are not modelled; the blocklist
lines and query names relevant here contain none). -/
def splitOnDot : List Char → List (List Char)
  | [] => [[]]
  | c :: rest =>
    if c = '.' then [] :: splitOnDot rest
    else
      match splitOnDot rest with
      | [] => [[c]]
      | l :: ls => (c :: l) :: ls

/-- Label lists of a domain name, dropping one trailing root dot.
Models dns.SplitDomainName: the empty name and the bare root give no labels. -/
def splitLabels (cs : List Char) : List (List Char) :=
  if cs = [] then []
  else
    let body := if cs.getLast? = some '.' then cs.dropLast else cs
    if body = [] then [] else splitOnDot body

/-- Model of dns.SplitDomainName at the String level. -/
def splitDomainName (s : String) : List String :=
  (splitLabels s.data).map fun l => ⟨l⟩

/-- Wire-format length of a label sequence: one length octet per label plus
its characters, plus the terminal root octet. -/
def encodedLen (ls : List (List Char)) : Nat :=
  ls.foldr (fun l acc => l.length + 1 + acc) 1

/-- Model of dns.IsDomainName: the name, made fully qualified, must pack into
wire format, which requires every label nonempty and at most 63 characters
long and the whole encoding at most 255 octets. The empty name and the bare
root are valid with zero labels. -/
def isDomainName (s : String) : Bool :=
  s.data.isEmpty || s.data == ['.'] ||
  (let ls := splitLabels s.data
   ls.all (fun l => 1 ≤ l.length && l.length ≤ 63) && encodedLen ls ≤ 255)

/-- Model of dns.IsFqdn: the name ends in a dot. -/
def isFqdn (s : String) : Bool := s.data.getLast? == some '.'

/-- Model of dns.Fqdn: append the root dot unless already present. -/
def fqdn (s : String) : String := if isFqdn s then s else s ++ "."

/-- Model of dns.CanonicalName: lowercase the fully qualified form. -/
def canonicalName (s : String) : String := lowerString (fqdn s)

/-- Model of strings.Contains for a one-character needle: membership of the
character among the characters of the string. -/
def containsChar (s : String) (c : Char) : Bool := decide (c ∈ s.data)

/-- A trie node: children keyed by label, as in the Go type node, a map from
label strings to child nodes. The map is an association list here; insertion
never duplicates keys. -/
inductive Node where
  | mk (children : List (String × Node))

/-- The child list of a node. -/
def Node.children : Node → List (String × Node)
  | .mk cs => cs

/-- Association-list lookup backing Node.find. -/
def Node.findEntry (k : String) : List (String × Node) → Option Node
  | [] => none
  | (k2, v) :: rest => if k2 = k then some v else Node.findEntry k rest

/-- Lookup of a child by label (Go map indexing). -/
def Node.find (n : Node) (k : String) : Option Node :=
  Node.findEntry k n.children

/-- Replace the value stored under an existing key (first occurrence),
modelling assignment to an existing Go map key. -/
def Node.replaceEntry (k : String) (v : Node) :
    List (String × Node) → List (String × Node)
  | [] => []
  | (k2, v2) :: rest =>
    if k2 = k then (k2, v) :: rest else (k2, v2) :: Node.replaceEntry k v rest

/-- The node-creating walk of Go GlobTrie.Insert along one label path: ensure
a child for each label exists, then continue along the remaining path. The Go
original mutates the shared map in place; this is the functional reading. -/
def Node.insertPath : Node → List String → Node
  | n, [] => n
  | n, l :: rest =>
    match n.find l with
    | some child => .mk (Node.replaceEntry l (child.insertPath rest) n.children)
    | none => .mk (n.children ++ [(l, (Node.mk []).insertPath rest)])

/-- Go globtrie.GlobTrie: a trie of domain name labels that can be globbed. -/
structure GlobTrie where
  root : Node

/-- Go globtrie.New. -/
def GlobTrie.new : GlobTrie := ⟨.mk []⟩

/-- Go GlobTrie.Insert. Returns the updated trie, or the error message of the
Go original. Every error return in the source happens before any mutation, so
the error case carries no trie. -/
def GlobTrie.Insert (lm : GlobTrie) (s0 : String) : Except String GlobTrie :=
  let s := lowerString s0
  if ¬ isDomainName s then .error "invalid domain"
  else if containsChar s '!' then
    .error "invalid domain: cannot contain exclamation point"
  else
    let labels := splitDomainName s
    if labels.length < 2 then
      .error "invalid domain: must have at least two levels"
    else .ok ⟨lm.root.insertPath (labels.reverse ++ ["!"])⟩

/-- One iteration of the traversal loop of Go GlobTrie.Contains for the
label l: the next current node and previous pointer, or none when the loop
returns false. The branch that descends into the wildcard child of the
previous node re-examines the same label with the previous pointer cleared;
since the cleared pointer rules out a second fallback there, that
re-examination is unfolded inline (one exact step or one wildcard step),
exactly as the loop executes it. -/
def walkStep (curr : Node) (prev : Option Node) (l : String) :
    Option (Node × Option Node) :=
  match curr.find l with
  | some next => some (next, some curr)
  | none =>
    match curr.find "*" with
    | some g => some (g, none)
    | none =>
      match prev with
      | none => none
      | some p =>
        match p.find "*" with
        | none => none
        | some g =>
          match g.find l with
          | some next => some (next, some g)
          | none =>
            match g.find "*" with
            | some g2 => some (g2, none)
            | none => none

/-- The traversal loop of Go GlobTrie.Contains, taking the labels from the
TLD inward; after the labels are exhausted the current node must carry the
terminal marker. -/
def walkTrie (curr : Node) (prev : Option Node) : List String → Bool
  | [] => (curr.find "!").isSome
  | l :: rest =>
    match walkStep curr prev l with
    | some (c2, p2) => walkTrie c2 p2 rest
    | none => false

/-- Go GlobTrie.Contains. -/
def GlobTrie.Contains (lm : GlobTrie) (s0 : String) : Bool :=
  let s := lowerString s0
  if ¬ isDomainName s then false
  else if containsChar s '!' || containsChar s '*' then false
  else
    let labels := splitDomainName s
    if labels.length < 2 then false
    else walkTrie lm.root none labels.reverse

/-- Go stringset.StringSet, a set of strings modelled as a duplicate-free
list. -/
def StringSet := List String

/-- Go stringset.New. -/
def StringSet.new : StringSet := []

/-- Go StringSet.Insert: always succeeds (the Go original returns nil). -/
def StringSet.Insert (set : StringSet) (s : String) : StringSet :=
  if List.contains set s then set else s :: set

/-- Go StringSet.Contains. -/
def StringSet.Contains (set : StringSet) (s : String) : Bool :=
  List.contains set s

/-- Go blocklist.Blocklist: one exact-name set and one glob trie. -/
structure Blocklist where
  exact : StringSet
  glob : GlobTrie

/-- Go blocklist.Empty. -/
def Blocklist.empty : Blocklist := ⟨StringSet.new, GlobTrie.new⟩

/-- One loop iteration of blocklist.Load for one scanned line: skip lines
failing dns.IsDomainName, canonicalize, route by the presence of a star to
the glob trie or the exact set, count successful insertions, and keep going
(only logging) when a glob insertion fails. -/
def loadLine (bl : Blocklist) (cnt : Nat) (l0 : String) : Blocklist × Nat :=
  if ¬ isDomainName l0 then (bl, cnt)
  else
    let l := canonicalName l0
    if containsChar l '*' then
      match bl.glob.Insert l with
      | .error _ => (bl, cnt)
      | .ok g => ({ bl with glob := g }, cnt + 1)
    else ({ bl with exact := bl.exact.Insert l }, cnt + 1)

/-- Go blocklist.Load. The scanned source is modelled as the list of lines
the scanner delivers before stopping, together with the read error the
scanner reports afterwards (none at end of input). -/
def Load (lines : List String) (readErr : Option String) :
    Blocklist × Nat × Option String :=
  let s := lines.foldl (fun bc l => loadLine bc.1 bc.2 l) (Blocklist.empty, 0)
  (s.1, s.2, readErr.map (fun e => "loading blocklist: " ++ e))

/-- Go Blocklist.Contains: membership in the exact set or in the glob trie. -/
def Blocklist.Contains (bl : Blocklist) (s : String) : Bool :=
  bl.exact.Contains s || bl.glob.Contains s

/-- Go roundrobin.RoundRobin: the copied address list and the cursor. -/
structure RoundRobin where
  list : List String
  idx : Nat

/-- Go roundrobin.New: copies the slice; no validation, no failure path. -/
def RoundRobin.new (ss : List String) : RoundRobin := ⟨ss, 0⟩

/-- Go RoundRobin.Next. Reading past the end of the empty list is a runtime
panic in Go, modelled as none; otherwise the element under the cursor is
returned and the cursor advances modulo the length. -/
def RoundRobin.next (r : RoundRobin) : Option (String × RoundRobin) :=
  match r.list.get? r.idx with
  | none => none
  | some s => some (s, ⟨r.list, (r.idx + 1) % r.list.length⟩)

/-- The value produced by sequential call number n to Next, counting from 0. -/
def RoundRobin.nthNext (r : RoundRobin) : Nat → Option String
  | 0 => r.next.map Prod.fst
  | n + 1 =>
    match r.next with
    | none => none
    | some (_, r2) => r2.nthNext n

/-- dns.ClassINET. -/
def classINET : Nat := 1
/-- dns.TypeA. -/
def typeA : Nat := 1
/-- dns.TypeAAAA. -/
def typeAAAA : Nat := 28
/-- dns.RcodeSuccess. -/
def rcodeSuccess : Nat := 0
/-- dns.RcodeServerFailure. -/
def rcodeServerFailure : Nat := 2
/-- dns.RcodeNameError. -/
def rcodeNameError : Nat := 3
/-- dns.RcodeRefused. -/
def rcodeRefused : Nat := 5

/-- One entry of the question section of a dns.Msg. -/
structure Question where
  name : String
  qtype : Nat
  qclass : Nat
deriving DecidableEq

/-- net.IPv4zero, as address bytes. -/
def IPv4zero : List Nat := [0, 0, 0, 0]

/-- net.IPv6zero, as address bytes. -/
def IPv6zero : List Nat := List.replicate 16 0

/-- Resource records: the two record structs the handler builds itself
(dns.A and dns.AAAA, header fields plus address bytes), and records relayed
verbatim from an upstream response, which the handler never inspects. -/
inductive RR where
  | a (name : String) (rrtype rclass : Nat) (ip : List Nat)
  | aaaa (name : String) (rrtype rclass : Nat) (ip : List Nat)
  | upstream (payload : Nat)
deriving DecidableEq

/-- The parts of dns.Msg the handler touches. -/
structure DnsMsg where
  id : Nat
  response : Bool
  rcode : Nat
  recursionDesired : Bool
  question : List Question
  answer : List RR
deriving DecidableEq

/-- Model of Msg.SetReply of the miekg library applied to a fresh message
holding the answer records ans: reply to r, carrying the identifier of r,
the success code, the recursion-desired bit of r and its first question. -/
def setReplyMsg (ans : List RR) (r : DnsMsg) : DnsMsg :=
  { id := r.id
    response := true
    rcode := rcodeSuccess
    recursionDesired := r.recursionDesired
    question :=
      match r.question with
      | [] => []
      | q :: _ => [q]
    answer := ans }

/-- Go writeAnswer: the message written back for a successful answer. -/
def writeAnswer (r : DnsMsg) (ans : List RR) : DnsMsg := setReplyMsg ans r

/-- Go writeErr: builds an empty reply and sets a response code on it. The
code parameter is ignored by the source, which hard-codes the name-error
code in its call to SetRcode. -/
def writeErr (r : DnsMsg) (code : Nat) : DnsMsg :=
  { setReplyMsg [] r with rcode := rcodeNameError }

/-- Go isValidQtype. -/
def isValidQtype (qtype : Nat) : Bool := qtype = typeA || qtype = typeAAAA

/-- Go generateBlockedAnswer. Parameter order follows the source signature:
name, then qclass, then qtype; the record-type switch and both header fields
are driven by these parameters as in the source. -/
def generateBlockedAnswer (fqdn0 : String) (qclass qtype : Nat) : RR :=
  if qtype = typeA then .a fqdn0 qtype qclass IPv4zero
  else if qtype = typeAAAA then .aaaa fqdn0 qtype qclass IPv6zero
  else .a fqdn0 qtype qclass IPv4zero

/-- Outcome of one handled query: the message written to the client and
whether an upstream exchange took place. -/
structure HandlerOutcome where
  written : DnsMsg
  exchanged : Bool
deriving DecidableEq

/-- Go DNSQueryHandler.HandleAandAAAA. Request-identifier generation is
modelled as succeeding (its failure branch depends on the entropy source,
outside this model). ns is the address the round-robin chooser returns, uid
the fresh transaction identifier dns.Id produces, exch the injected exchange
collaborator. Note that the call to generateBlockedAnswer passes the question
type and class in that order, while the signature of generateBlockedAnswer
declares qclass before qtype, exactly as in the source. -/
def HandleAandAAAA (blocklist : Blocklist) (ns : String) (uid : Nat)
    (exch : DnsMsg → String → Except String DnsMsg) (r : DnsMsg) :
    HandlerOutcome :=
  match r.question with
  | [] => ⟨writeErr r rcodeRefused, false⟩
  | q :: _ =>
    let f := fqdn q.name
    if q.qclass ≠ classINET then ⟨writeErr r rcodeRefused, false⟩
    else if ¬ isValidQtype q.qtype then ⟨writeErr r rcodeRefused, false⟩
    else if blocklist.Contains f then
      let ans := generateBlockedAnswer f q.qtype q.qclass
      ⟨writeAnswer r [ans], false⟩
    else
      let uquery : DnsMsg :=
        { id := uid
          response := false
          rcode := rcodeSuccess
          recursionDesired := r.recursionDesired
          question := [{ name := f, qtype := q.qtype, qclass := q.qclass }]
          answer := [] }
      match exch uquery ns with
      | .error _ => ⟨writeErr r rcodeServerFailure, true⟩
      | .ok ures =>
        if uquery.id ≠ ures.id then ⟨writeErr r rcodeServerFailure, true⟩
        else if ures.answer.length < 1 then ⟨writeErr r rcodeNameError, true⟩
        else ⟨writeAnswer r ures.answer, true⟩

/-- Insert that keeps the old trie when Insert reports an error; used to
build the concrete example tries below (all these insertions succeed, which
the theorems also record). -/
def GlobTrie.insertD (t : GlobTrie) (s : String) : GlobTrie :=
  match t.Insert s with
  | .ok t2 => t2
  | .error _ => t

/-- An exchange collaborator that always fails, for exercising branches that
must not (or must) reach the upstream exchange. -/
def exchFail : DnsMsg → String → Except String DnsMsg :=
  fun _ _ => .error "network unreachable"

/-- An exchange collaborator answering with a fixed identifier and answer
section. -/
def exchOkWithId (i : Nat) (ans : List RR) :
    DnsMsg → String → Except String DnsMsg :=
  fun _ _ => .ok ⟨i, true, 0, true, [], ans⟩

/-- A query message with an empty question section. -/
def msgNoQuestion : DnsMsg := ⟨9, false, 0, true, [], []⟩

/-- A query whose question carries the CHAOS class (3) instead of INET. -/
def msgChaosClass : DnsMsg := ⟨9, false, 0, true, [⟨"a.example.com.", typeA, 3⟩], []⟩

/-- A query whose question carries the TXT type (16) instead of A or AAAA. -/
def msgTxtType : DnsMsg := ⟨9, false, 0, true, [⟨"a.example.com.", 16, classINET⟩], []⟩

/-- A blocklist loaded from the single line blocked.example.com. -/
def blockedBl : Blocklist := (Load ["blocked.example.com"] none).1

/-- An INET A question for the blocked name. -/
def msgBlockedA : DnsMsg :=
  ⟨9, false, 0, true, [⟨"blocked.example.com.", typeA, classINET⟩], []⟩

/-- An INET AAAA question for the blocked name. -/
def msgBlockedAAAA : DnsMsg :=
  ⟨9, false, 0, true, [⟨"blocked.example.com.", typeAAAA, classINET⟩], []⟩

/-- An INET A question for a name the blocklist does not contain, so the
handler forwards it upstream. -/
def msgForward : DnsMsg :=
  ⟨9, false, 0, true, [⟨"other.example.org.", typeA, classINET⟩], []⟩

/-- C1. The claim says the dispatcher writes the Refused code for a query
with no questions, a non-INET class, or a non-address type. The code routes
all three cases through writeErr, which discards its code argument and
hard-codes the name-error code, so each of the three rejections is written
with rcode 3 (name error), not 5 (refused). -/
theorem handler_rejections_use_name_error_code :
    (HandleAandAAAA Blocklist.empty "ns" 7 exchFail msgNoQuestion).written.rcode
        = rcodeNameError ∧
    (HandleAandAAAA Blocklist.empty "ns" 7 exchFail msgNoQuestion).written.response = true ∧
    (HandleAandAAAA Blocklist.empty "ns" 7 exchFail msgChaosClass).written.rcode
        = rcodeNameError ∧
    (HandleAandAAAA Blocklist.empty "ns" 7 exchFail msgTxtType).written.rcode
        = rcodeNameError ∧
    rcodeNameError ≠ rcodeRefused := by decide

/-- C2. The claim says a blocked AAAA query is answered with an AAAA record
holding the IPv6 all-zeros address. The handler calls generateBlockedAnswer
with the question type and class swapped relative to the declared parameter
order, so a blocked AAAA query is answered locally (no exchange) but with a
dns.A record whose header type field is 1 (the A type), whose class field is
28 (the AAAA type number), and whose address is the IPv4 zero address. The
blocked A query happens to produce the claimed record because the INET class
number equals the A type number. -/
theorem blocked_aaaa_answer_is_ipv4_a_record :
    (HandleAandAAAA blockedBl "ns" 7 exchFail msgBlockedA).exchanged = false ∧
    (HandleAandAAAA blockedBl "ns" 7 exchFail msgBlockedA).written.answer
        = [RR.a "blocked.example.com." typeA classINET IPv4zero] ∧
    (HandleAandAAAA blockedBl "ns" 7 exchFail msgBlockedAAAA).exchanged = false ∧
    (HandleAandAAAA blockedBl "ns" 7 exchFail msgBlockedAAAA).written.answer
        = [RR.a "blocked.example.com." typeA typeAAAA IPv4zero] ∧
    [RR.a "blocked.example.com." typeA typeAAAA IPv4zero]
        ≠ [RR.aaaa "blocked.example.com." typeAAAA classINET IPv6zero] := by decide

/-- C4. The claim says upstream exchange failure and identifier mismatch are
written with the server-failure code and an empty upstream answer section
with the name-error code. Because writeErr discards its code argument, all
three branches are written with the name-error code 3: the empty-answer case
agrees with the claim, the other two do not. -/
theorem forwarding_failures_all_use_name_error_code :
    (HandleAandAAAA Blocklist.empty "ns" 7 exchFail msgForward).exchanged = true ∧
    (HandleAandAAAA Blocklist.empty "ns" 7 exchFail msgForward).written.rcode
        = rcodeNameError ∧
    (HandleAandAAAA Blocklist.empty "ns" 7 (exchOkWithId 8 [RR.upstream 0]) msgForward).written.rcode
        = rcodeNameError ∧
    (HandleAandAAAA Blocklist.empty "ns" 7 (exchOkWithId 7 []) msgForward).written.rcode
        = rcodeNameError ∧
    rcodeNameError ≠ rcodeServerFailure := by decide

/-- The trie of the previous-node fallback example: an exact sibling path
sub1.example.com, the covering wildcard pattern *.example.com placing a
wildcard child at the example node, and the pattern sub2.*.example.com. -/
def fallbackTrie : GlobTrie :=
  ((GlobTrie.new.insertD "sub1.example.com.").insertD "*.example.com.").insertD
    "sub2.*.example.com."

/-- C5. With sub2.*.example.com inserted together with the covering pattern
*.example.com and the exact sibling path sub1.example.com, Contains finds
both sub2.sub1.example.com (the exact walk fails at sub2 after the exact
match on sub1, and the traversal descends into the wildcard child of the
previous node and re-examines the same label) and sub2.ss.example.com. -/
theorem prev_node_wildcard_fallback_matches :
    (GlobTrie.new.Insert "sub1.example.com.").isOk = true ∧
    ((GlobTrie.new.insertD "sub1.example.com.").Insert "*.example.com.").isOk = true ∧
    (((GlobTrie.new.insertD "sub1.example.com.").insertD "*.example.com.").Insert
        "sub2.*.example.com.").isOk = true ∧
    fallbackTrie.Contains "sub2.sub1.example.com" = true ∧
    fallbackTrie.Contains "sub2.ss.example.com" = true := by decide

/-- C7 counterexample. The claim says construction of the selector rejects an
empty address sequence so that Next is never reachable on an empty selector.
The constructor has no failure path at all: it returns an ordinary selector
holding the empty list, and the failure happens only at the first Next call
(an out-of-range read, modelled as none). -/
theorem new_accepts_empty_list :
    RoundRobin.new [] = { list := [], idx := 0 } ∧
    (RoundRobin.new []).next = none := ⟨rfl, rfl⟩

/-- C7 as amended: construction never fails and performs no validation; for
every address sequence it returns the selector holding that sequence with the
cursor at 0, and on the empty sequence the empty case surfaces only at the
first Next call, which fails. -/
theorem empty_selector_fails_at_first_next :
    (∀ ss : List String, RoundRobin.new ss = { list := ss, idx := 0 }) ∧
    (RoundRobin.new []).next = none := ⟨fun _ => rfl, rfl⟩

/-- A blocklist loaded from the single exact line example.com; the stored
canonical pattern is the lowercase example.com. with the trailing dot. -/
def caseBl : Blocklist := (Load ["example.com"] none).1

/-- C3 counterexample. The claim says Blocklist.Contains agrees on every name
and its lowercase form because both lookup paths fold case. The exact-set
path performs no folding: the uppercase spelling misses the stored pattern
while its lowercase form hits it. -/
theorem blocklist_contains_not_case_insensitive :
    caseBl.Contains "EXAMPLE.com." ≠ caseBl.Contains (lowerString "EXAMPLE.com.") := by
  decide

theorem toNat_ofNat_of_lt {n : Nat} (h : n < 55296) : (Char.ofNat n).toNat = n := by
  have hv : Nat.isValidChar n := Or.inl h
  simp [Char.ofNat, hv, Char.ofNatAux, Char.toNat, UInt32.toNat, UInt32.ofNat']

theorem lowerChar_toNat (c : Char) :
    (lowerChar c).toNat
      = if 65 ≤ c.toNat ∧ c.toNat ≤ 90 then c.toNat + 32 else c.toNat := by
  unfold lowerChar
  split
  · next h => exact toNat_ofNat_of_lt (by omega)
  · rfl

theorem lowerChar_eq_self {c : Char} (h : ¬ (65 ≤ c.toNat ∧ c.toNat ≤ 90)) :
    lowerChar c = c := if_neg h

theorem lowerChar_idem (c : Char) : lowerChar (lowerChar c) = lowerChar c := by
  have h := lowerChar_toNat c
  apply lowerChar_eq_self
  by_cases hc : 65 ≤ c.toNat ∧ c.toNat ≤ 90
  · rw [if_pos hc] at h; omega
  · rw [if_neg hc] at h; omega

theorem lowerString_idem (s : String) : lowerString (lowerString s) = lowerString s := by
  unfold lowerString
  simp [List.map_map, Function.comp_def, lowerChar_idem]

/-- C3 as amended: only the trie path folds case before lookup, because
GlobTrie.Contains lowercases its argument itself; the exact-set path does
not fold, so the whole-blocklist membership is case-sensitive on the exact
set (see the counterexample above). -/
theorem globtrie_contains_case_folds (t : GlobTrie) (s : String) :
    t.Contains (lowerString s) = t.Contains s := by
  unfold GlobTrie.Contains
  rw [lowerString_idem]

theorem nthNext_succ (r : RoundRobin) (n : Nat) :
    r.nthNext (n + 1)
      = match r.next with
        | none => none
        | some (_, r2) => r2.nthNext n := rfl

theorem next_of_get {ss : List String} {idx : Nat} {a : String}
    (ha : ss.get? idx = some a) :
    RoundRobin.next ⟨ss, idx⟩ = some (a, ⟨ss, (idx + 1) % ss.length⟩) := by
  rw [List.get?_eq_getElem?] at ha
  simp [RoundRobin.next, ha]

theorem nthNext_loop (ss : List String) (n : Nat) :
    ∀ idx, idx < ss.length →
      RoundRobin.nthNext ⟨ss, idx⟩ n = ss.get? ((idx + n) % ss.length) := by
  induction n with
  | zero =>
    intro idx h
    obtain ⟨a, ha⟩ : ∃ a, ss.get? idx = some a := by
      rw [List.get?_eq_getElem?]
      exact ⟨ss[idx], by simp [List.getElem?_eq_getElem h]⟩
    have hnext := next_of_get ha
    rw [List.get?_eq_getElem?] at ha
    simp [RoundRobin.nthNext, hnext, Nat.mod_eq_of_lt h, ha]
  | succ n ih =>
    intro idx h
    have hpos : 0 < ss.length := Nat.lt_of_le_of_lt (Nat.zero_le idx) h
    obtain ⟨a, ha⟩ : ∃ a, ss.get? idx = some a := by
      rw [List.get?_eq_getElem?]
      exact ⟨ss[idx], by simp [List.getElem?_eq_getElem h]⟩
    rw [nthNext_succ, next_of_get ha]
    show RoundRobin.nthNext ⟨ss, (idx + 1) % ss.length⟩ n
        = ss.get? ((idx + (n + 1)) % ss.length)
    rw [ih ((idx + 1) % ss.length) (Nat.mod_lt _ hpos), Nat.mod_add_mod]
    have heq : idx + 1 + n = idx + (n + 1) := by omega
    rw [heq]

/-- C8. The n-th sequential call to Next on a selector freshly built from ss
(counting from 0) returns the element at index n modulo the length of ss:
selection is strictly cyclic in insertion order starting from index 0, with
no address skipped or repeated within a cycle. -/
theorem roundrobin_nth_call_cycles (ss : List String) (h : ss ≠ []) (n : Nat) :
    RoundRobin.nthNext (RoundRobin.new ss) n = ss.get? (n % ss.length) := by
  have hlen : 0 < ss.length := List.length_pos.mpr h
  have hmain := nthNext_loop ss n 0 hlen
  simpa using hmain

/-- Witness for C8 at the concrete address list of the spec, call number 4:
the second cycle yields the second address again. -/
theorem roundrobin_nth_call_cycles_witness :
    (["A", "B", "C"] : List String) ≠ [] ∧
    RoundRobin.nthNext (RoundRobin.new ["A", "B", "C"]) 4
      = (["A", "B", "C"] : List String).get? (4 % 3) :=
  ⟨by decide, roundrobin_nth_call_cycles ["A", "B", "C"] (by decide) 4⟩


theorem findEntry_replaceEntry_self {cs : List (String × Node)} {k : String} {v : Node}
    (h : Node.findEntry k cs = some v) : Node.replaceEntry k v cs = cs := by
  induction cs with
  | nil => simp [Node.findEntry] at h
  | cons e rest ih =>
    obtain ⟨k2, v2⟩ := e
    unfold Node.findEntry at h
    unfold Node.replaceEntry
    by_cases hk : k2 = k
    · rw [if_pos hk] at h
      rw [if_pos hk]
      cases h
      rfl
    · rw [if_neg hk] at h
      rw [if_neg hk, ih h]

theorem findEntry_replaceEntry_found {cs : List (String × Node)} {k : String}
    {v w : Node} (h : Node.findEntry k cs = some w) :
    Node.findEntry k (Node.replaceEntry k v cs) = some v := by
  induction cs with
  | nil => simp [Node.findEntry] at h
  | cons e rest ih =>
    obtain ⟨k2, v2⟩ := e
    unfold Node.findEntry at h
    unfold Node.replaceEntry
    by_cases hk : k2 = k
    · rw [if_pos hk]
      unfold Node.findEntry
      rw [if_pos hk]
    · rw [if_neg hk] at h
      rw [if_neg hk]
      unfold Node.findEntry
      rw [if_neg hk]
      exact ih h

theorem findEntry_append_new {cs : List (String × Node)} {k : String} {v : Node}
    (h : Node.findEntry k cs = none) :
    Node.findEntry k (cs ++ [(k, v)]) = some v := by
  induction cs with
  | nil => simp [Node.findEntry]
  | cons e rest ih =>
    obtain ⟨k2, v2⟩ := e
    unfold Node.findEntry at h
    by_cases hk : k2 = k
    · rw [if_pos hk] at h
      exact absurd h (by simp)
    · rw [if_neg hk] at h
      show Node.findEntry k ((k2, v2) :: (rest ++ [(k, v)])) = some v
      unfold Node.findEntry
      rw [if_neg hk]
      exact ih h

theorem insertPath_cons (n : Node) (l : String) (rest : List String) :
    Node.insertPath n (l :: rest)
      = match n.find l with
        | some child => .mk (Node.replaceEntry l (child.insertPath rest) n.children)
        | none => .mk (n.children ++ [(l, (Node.mk []).insertPath rest)]) := by
  rw [Node.insertPath]

theorem insertPath_idem (p : List String) :
    ∀ n : Node, Node.insertPath (Node.insertPath n p) p = Node.insertPath n p := by
  induction p with
  | nil => intro n; rfl
  | cons l rest ih =>
    intro n
    cases hf : n.find l with
    | some child =>
      have step1 : Node.insertPath n (l :: rest)
          = .mk (Node.replaceEntry l (child.insertPath rest) n.children) := by
        rw [insertPath_cons, hf]
      have hfind : (Node.mk (Node.replaceEntry l (child.insertPath rest) n.children)).find l
          = some (child.insertPath rest) :=
        findEntry_replaceEntry_found hf
      have hfindE : Node.findEntry l (Node.replaceEntry l (child.insertPath rest) n.children)
          = some (child.insertPath rest) := hfind
      have step2 : Node.insertPath
            (Node.mk (Node.replaceEntry l (child.insertPath rest) n.children)) (l :: rest)
          = .mk (Node.replaceEntry l ((child.insertPath rest).insertPath rest)
              (Node.replaceEntry l (child.insertPath rest) n.children)) := by
        rw [insertPath_cons, hfind]
        rfl
      rw [step1, step2, ih child, findEntry_replaceEntry_self hfindE]
    | none =>
      have step1 : Node.insertPath n (l :: rest)
          = .mk (n.children ++ [(l, (Node.mk []).insertPath rest)]) := by
        rw [insertPath_cons, hf]
      have hfind : (Node.mk (n.children ++ [(l, (Node.mk []).insertPath rest)])).find l
          = some ((Node.mk []).insertPath rest) :=
        findEntry_append_new hf
      have hfindE : Node.findEntry l (n.children ++ [(l, (Node.mk []).insertPath rest)])
          = some ((Node.mk []).insertPath rest) := hfind
      have step2 : Node.insertPath
            (Node.mk (n.children ++ [(l, (Node.mk []).insertPath rest)])) (l :: rest)
          = .mk (Node.replaceEntry l (((Node.mk []).insertPath rest).insertPath rest)
              (n.children ++ [(l, (Node.mk []).insertPath rest)])) := by
        rw [insertPath_cons, hfind]
        rfl
      rw [step1, step2, ih (Node.mk []), findEntry_replaceEntry_self hfindE]

theorem insert_isOk_iff (t : GlobTrie) (s : String) :
    (t.Insert s).isOk = true ↔
      (isDomainName (lowerString s) = true ∧
       containsChar (lowerString s) '!' = false ∧
       2 ≤ (splitDomainName (lowerString s)).length) := by
  simp only [GlobTrie.Insert]
  by_cases h1 : isDomainName (lowerString s) = true
  · by_cases h2 : containsChar (lowerString s) '!' = true
    · rw [if_neg (by simp [h1]), if_pos h2]
      constructor
      · intro hfalse
        simp [Except.isOk, Except.toBool] at hfalse
      · rintro ⟨-, hc, -⟩
        rw [h2] at hc
        exact absurd hc (by simp)
    · by_cases h3 : (splitDomainName (lowerString s)).length < 2
      · rw [if_neg (by simp [h1]), if_neg h2, if_pos h3]
        constructor
        · intro hfalse
          simp [Except.isOk, Except.toBool] at hfalse
        · rintro ⟨-, -, hlen⟩
          omega
      · rw [if_neg (by simp [h1]), if_neg h2, if_neg h3]
        constructor
        · intro hok2
          exact ⟨h1, by simpa using h2, by omega⟩
        · intro hok2
          rfl
  · rw [if_pos (by simp [h1])]
    constructor
    · intro hfalse
      simp [Except.isOk, Except.toBool] at hfalse
    · rintro ⟨hd, -, -⟩
      exact absurd hd h1

theorem isDomainName_eq_false_of_long {s : String} {l : List Char}
    (hmem : l ∈ splitLabels s.data) (hlen : 63 < l.length) :
    isDomainName s = false := by
  unfold isDomainName
  have h1 : s.data.isEmpty = false := by
    cases hd : s.data with
    | nil =>
      rw [hd] at hmem
      have : splitLabels [] = ([] : List (List Char)) := rfl
      rw [this] at hmem
      exact absurd hmem (List.not_mem_nil l)
    | cons c cs => rfl
  have h2 : (s.data == ['.']) = false := by
    by_cases hd : s.data = ['.']
    · rw [hd] at hmem
      have : splitLabels ['.'] = ([] : List (List Char)) := rfl
      rw [this] at hmem
      exact absurd hmem (List.not_mem_nil l)
    · exact beq_eq_false_iff_ne.mpr hd
  rw [h1, h2]
  simp only [Bool.false_or]
  have h3 : (splitLabels s.data).all (fun l => 1 ≤ l.length && l.length ≤ 63) = false := by
    rw [List.all_eq_false]
    exact ⟨l, hmem, by simp; omega⟩
  simp [h3]

/-- C9. Insert rejects each of the three malformed shapes the spec lists,
returning an error (and, the error paths all running before any mutation,
leaving the trie unchanged): a label longer than 63 characters, a name with
fewer than two labels, a pattern containing the reserved terminal marker.
Conversely a well-formed pattern is accepted, and re-inserting a pattern
that is already present succeeds and returns the identical trie, so Contains
behavior is unchanged (idempotence). -/
theorem globtrie_insert_validation_and_idempotence :
    (∀ (t : GlobTrie) (s : String),
        (∃ l ∈ splitLabels (lowerString s).data, 63 < l.length) →
          (t.Insert s).isOk = false) ∧
    (∀ (t : GlobTrie) (s : String),
        (splitDomainName (lowerString s)).length < 2 →
          (t.Insert s).isOk = false) ∧
    (∀ (t : GlobTrie) (s : String),
        containsChar (lowerString s) '!' = true →
          (t.Insert s).isOk = false) ∧
    (∀ (t : GlobTrie) (s : String),
        isDomainName (lowerString s) = true →
        containsChar (lowerString s) '!' = false →
        2 ≤ (splitDomainName (lowerString s)).length →
          (t.Insert s).isOk = true) ∧
    (∀ (t t2 : GlobTrie) (s : String),
        t.Insert s = .ok t2 → t2.Insert s = .ok t2) := by
  have hchar : ∀ (t : GlobTrie) (s : String),
      (t.Insert s).isOk = true ↔
        (isDomainName (lowerString s) = true ∧
         containsChar (lowerString s) '!' = false ∧
         2 ≤ (splitDomainName (lowerString s)).length) := insert_isOk_iff
  refine ⟨?_, ?_, ?_, ?_, ?_⟩
  · intro t s h
    obtain ⟨l, hmem, hlen⟩ := h
    have hd := isDomainName_eq_false_of_long hmem hlen
    cases hok : (t.Insert s).isOk with
    | false => rfl
    | true =>
      obtain ⟨h1, -, -⟩ := (hchar t s).mp hok
      rw [hd] at h1
      exact absurd h1 (by simp)
  · intro t s h
    cases hok : (t.Insert s).isOk with
    | false => rfl
    | true =>
      obtain ⟨-, -, h3⟩ := (hchar t s).mp hok
      omega
  · intro t s h
    cases hok : (t.Insert s).isOk with
    | false => rfl
    | true =>
      obtain ⟨-, h2, -⟩ := (hchar t s).mp hok
      rw [h] at h2
      exact absurd h2 (by simp)
  · intro t s h1 h2 h3
    exact (hchar t s).mpr ⟨h1, h2, h3⟩
  · intro t t2 s h
    have hok : (t.Insert s).isOk = true := by rw [h]; rfl
    obtain ⟨h1, h2, h3⟩ := (hchar t s).mp hok
    have hroot : t2.root = t.root.insertPath
        ((splitDomainName (lowerString s)).reverse ++ ["!"]) := by
      simp only [GlobTrie.Insert] at h
      rw [if_neg (by simp [h1]), if_neg (by simp [h2]), if_neg (by omega)] at h
      cases h
      rfl
    simp only [GlobTrie.Insert]
    rw [if_neg (by simp [h1]), if_neg (by simp [h2]), if_neg (by omega)]
    have : t2.root.insertPath ((splitDomainName (lowerString s)).reverse ++ ["!"]) = t2.root := by
      rw [hroot]
      exact insertPath_idem _ t.root
    rw [this]

/-- Witness for C9: the three malformed inputs of the repository test suite
are rejected on the empty trie, a well-formed pattern is accepted, and
re-inserting that pattern into the resulting trie returns it unchanged. -/
theorem globtrie_insert_validation_and_idempotence_witness :
    (GlobTrie.new.Insert
        "1234567890123456789012345678901234567890123456789012345678901234.example.com").isOk
      = false ∧
    (GlobTrie.new.Insert "com").isOk = false ∧
    (GlobTrie.new.Insert "!example.com").isOk = false ∧
    (GlobTrie.new.Insert "example.com.").isOk = true ∧
    (GlobTrie.new.insertD "example.com.").Insert "example.com."
      = .ok (GlobTrie.new.insertD "example.com.") := by
  have h := globtrie_insert_validation_and_idempotence
  refine ⟨?_, ?_, ?_, ?_, ?_⟩
  · exact h.1 GlobTrie.new _ (by decide)
  · exact h.2.1 GlobTrie.new "com" (by decide)
  · exact h.2.2.1 GlobTrie.new "!example.com" (by decide)
  · exact h.2.2.2.1 GlobTrie.new "example.com." (by decide) (by decide) (by decide)
  · exact h.2.2.2.2 GlobTrie.new (GlobTrie.new.insertD "example.com.") "example.com." rfl

/-- Whether one blocklist line is counted as successfully inserted by Load:
the line passes the domain-name validation, and, if its canonical form holds
a star, the glob-trie validation accepts it (the exact-set insertion never
fails). The glob-trie validation depends only on the pattern, not on the trie
contents, which the next lemma records. -/
def lineCounted (l0 : String) : Bool :=
  isDomainName l0 &&
    (if containsChar (canonicalName l0) '*' then
       (GlobTrie.new.Insert (canonicalName l0)).isOk
     else true)

theorem insert_isOk_trie_free (t t2 : GlobTrie) (s : String) :
    (t.Insert s).isOk = (t2.Insert s).isOk := by
  cases h : (t2.Insert s).isOk with
  | true => exact (insert_isOk_iff t s).mpr ((insert_isOk_iff t2 s).mp h)
  | false =>
    cases h2 : (t.Insert s).isOk with
    | false => rfl
    | true =>
      rw [(insert_isOk_iff t2 s).mpr ((insert_isOk_iff t s).mp h2)] at h
      exact absurd h (by simp)

theorem loadLine_snd (bl : Blocklist) (cnt : Nat) (l0 : String) :
    (loadLine bl cnt l0).2 = cnt + (if lineCounted l0 then 1 else 0) := by
  simp only [loadLine, lineCounted]
  by_cases h1 : isDomainName l0 = true
  · rw [if_neg (by simp [h1])]
    by_cases h2 : containsChar (canonicalName l0) '*' = true
    · rw [if_pos h2]
      cases hI : bl.glob.Insert (canonicalName l0) with
      | error e =>
        have hok : (GlobTrie.new.Insert (canonicalName l0)).isOk = false := by
          rw [insert_isOk_trie_free GlobTrie.new bl.glob, hI]
          rfl
        simp [h1, h2, hok]
      | ok g =>
        have hok : (GlobTrie.new.Insert (canonicalName l0)).isOk = true := by
          rw [insert_isOk_trie_free GlobTrie.new bl.glob, hI]
          rfl
        simp [h1, h2, hok]
    · rw [if_neg h2]
      simp [h1, h2]
  · rw [if_pos (by simp [h1])]
    simp [h1]

theorem load_count_loop (lines : List String) :
    ∀ (bl : Blocklist) (cnt : Nat),
      (lines.foldl (fun bc l => loadLine bc.1 bc.2 l) (bl, cnt)).2
        = cnt + lines.countP lineCounted := by
  induction lines with
  | nil => intro bl cnt; simp
  | cons l rest ih =>
    intro bl cnt
    rw [List.foldl_cons, List.countP_cons]
    show (List.foldl (fun bc l => loadLine bc.1 bc.2 l) (loadLine bl cnt l) rest).2
        = cnt + (rest.countP lineCounted + if lineCounted l then 1 else 0)
    cases hL : loadLine bl cnt l with
    | mk bl2 cnt2 =>
      have h2 : cnt2 = cnt + (if lineCounted l then 1 else 0) := by
        have hs := loadLine_snd bl cnt l
        rw [hL] at hs
        exact hs
      rw [ih bl2 cnt2, h2]
      omega

/-- C10. When the underlying reader fails after delivering its lines, Load
returns the same blocklist and the same count as a loss-free run over those
lines (the partially loaded state is preserved, not discarded), together
with the wrapped read error; the count equals the number of delivered lines
whose insertion succeeded, and per-line validation or insertion failures
never reach the returned error, which is nonempty exactly when the reader
failed. -/
theorem load_preserves_partial_state_and_count (lines : List String) (e : String) :
    Load lines (some e)
      = ((Load lines none).1, (Load lines none).2.1, some ("loading blocklist: " ++ e)) ∧
    (Load lines (some e)).2.1 = lines.countP lineCounted ∧
    (Load lines none).2.2 = none := by
  refine ⟨rfl, ?_, rfl⟩
  show (Load lines (some e)).2.1 = lines.countP lineCounted
  have h := load_count_loop lines Blocklist.empty 0
  simpa [Load] using h

theorem char_ne_of_toNat_ne {a b : Char} (h : a.toNat ≠ b.toNat) : a ≠ b :=
  fun he => h (by rw [he])

/-- Lowercasing a character that is legal inside a domain label (a letter, a
digit, or a hyphen, as the spec defines labels) yields a character distinct
from the separator dot, the terminal marker, and the wildcard star. -/
theorem lowerChar_label_ne {c : Char}
    (h : c.isAlpha = true ∨ c.isDigit = true ∨ c = '-') :
    lowerChar c ≠ '.' ∧ lowerChar c ≠ '!' ∧ lowerChar c ≠ '*' := by
  have htn : (lowerChar c).toNat
      = if 65 ≤ c.toNat ∧ c.toNat ≤ 90 then c.toNat + 32 else c.toNat :=
    lowerChar_toNat c
  have hr : 45 = c.toNat ∨ (48 ≤ c.toNat ∧ c.toNat ≤ 57) ∨
      (65 ≤ c.toNat ∧ c.toNat ≤ 90) ∨ (97 ≤ c.toNat ∧ c.toNat ≤ 122) := by
    rcases h with h | h | h
    · simp [Char.isAlpha, Char.isUpper, Char.isLower, Char.le_def, UInt32.le_def] at h
      rcases h with h | h
      · exact Or.inr (Or.inr (Or.inl h))
      · exact Or.inr (Or.inr (Or.inr h))
    · simp [Char.isDigit, Char.le_def, UInt32.le_def] at h
      exact Or.inr (Or.inl h)
    · subst h
      exact Or.inl rfl
  have hdot : ('.' : Char).toNat = 46 := rfl
  have hbang : ('!' : Char).toNat = 33 := rfl
  have hstar : ('*' : Char).toNat = 42 := rfl
  refine ⟨char_ne_of_toNat_ne ?_, char_ne_of_toNat_ne ?_, char_ne_of_toNat_ne ?_⟩ <;>
    · rw [htn]
      split <;> omega

theorem splitOnDot_cons (c : Char) (rest : List Char) :
    splitOnDot (c :: rest)
      = if c = '.' then [] :: splitOnDot rest
        else
          match splitOnDot rest with
          | [] => [[c]]
          | l :: ls => (c :: l) :: ls := by
  rw [splitOnDot]

theorem splitOnDot_append (xs ys : List Char) (h : '.' ∉ xs) :
    splitOnDot (xs ++ '.' :: ys) = xs :: splitOnDot ys := by
  induction xs with
  | nil =>
    show splitOnDot ('.' :: ys) = [] :: splitOnDot ys
    rw [splitOnDot_cons, if_pos rfl]
  | cons c xs ih =>
    have hc : c ≠ '.' := fun he => h (he ▸ List.mem_cons_self c xs)
    have hxs : '.' ∉ xs := fun hm => h (List.mem_cons_of_mem c hm)
    show splitOnDot (c :: (xs ++ '.' :: ys)) = (c :: xs) :: splitOnDot ys
    rw [splitOnDot_cons, if_neg hc, ih hxs]

/-- The trie holding only the wildcard pattern of the claim. -/
def starTrie : GlobTrie := GlobTrie.new.insertD "*.example.com."

/-- The four nodes of starTrie, innermost first. -/
def starNodeBang : Node := Node.mk [("!", Node.mk [])]

/-- The wildcard node of starTrie. -/
def starNodeStar : Node := Node.mk [("*", starNodeBang)]

/-- The example node of starTrie. -/
def starNodeExample : Node := Node.mk [("example", starNodeStar)]

/-- The root of starTrie. -/
def starNodeRoot : Node := Node.mk [("com", starNodeExample)]

theorem walkTrie_cons (curr : Node) (prev : Option Node) (l : String)
    (rest : List String) :
    walkTrie curr prev (l :: rest)
      = match walkStep curr prev l with
        | some (c2, p2) => walkTrie c2 p2 rest
        | none => false := by
  rw [walkTrie]

/-- Core of C6: any query whose lowercased form is a single clean label in
front of .example.com is matched by the trie holding only *.example.com. -/
theorem contains_star_example (s0 : String) (M : List Char)
    (hlow : lowerString s0 = ⟨M ++ ".example.com".data⟩)
    (h1 : 1 ≤ M.length) (h63 : M.length ≤ 63)
    (hdot : '.' ∉ M) (hbang : '!' ∉ M) (hstar : '*' ∉ M) :
    starTrie.Contains s0 = true := by
  have hsdata : (⟨M ++ ".example.com".data⟩ : String).data = M ++ ".example.com".data := rfl
  have hMne : M ≠ [] := by
    intro h
    rw [h] at h1
    simp at h1
  have happend : M ++ ".example.com".data ≠ [] := by
    intro h
    rcases List.append_eq_nil.mp h with ⟨hm, -⟩
    exact hMne hm
  have hlast : (M ++ ".example.com".data).getLast? = some 'm' := by
    rw [List.getLast?_append_of_ne_nil _ (show (".example.com".data : List Char) ≠ [] by decide)]
    decide
  have hsplit : splitLabels (M ++ ".example.com".data)
      = [M, "example".data, "com".data] := by
    simp only [splitLabels]
    rw [if_neg happend, hlast]
    simp only [if_neg (show ¬ ((some 'm' : Option Char) = some '.') from by decide)]
    rw [if_neg happend, splitOnDot_append _ _ hdot]
    rfl
  have hdom : isDomainName ⟨M ++ ".example.com".data⟩ = true := by
    simp only [isDomainName, hsdata, hsplit]
    have hne2 : (M ++ ".example.com".data).isEmpty = false := by
      cases hM : M with
      | nil => exact absurd hM hMne
      | cons c cs => rfl
    have hne3 : ((M ++ ".example.com".data) == ['.']) = false := by
      apply beq_eq_false_iff_ne.mpr
      intro h
      have := congrArg List.length h
      simp at this
    rw [hne2, hne3]
    simp [encodedLen, h1, h63]
    omega
  have hbangS : containsChar ⟨M ++ ".example.com".data⟩ '!' = false := by
    simp [containsChar, hsdata, List.mem_append, hbang]
  have hstarS : containsChar ⟨M ++ ".example.com".data⟩ '*' = false := by
    simp [containsChar, hsdata, List.mem_append, hstar]
  have hsplitD : splitDomainName ⟨M ++ ".example.com".data⟩
      = [⟨M⟩, "example", "com"] := by
    simp only [splitDomainName, hsdata, hsplit]
    rfl
  simp only [GlobTrie.Contains]
  rw [hlow, if_neg (by simp [hdom]), if_neg (by simp [hbangS, hstarS]), hsplitD,
      if_neg (by simp)]
  show walkTrie starTrie.root none ["com", "example", (⟨M⟩ : String)] = true
  have hroot : starTrie.root = starNodeRoot := rfl
  rw [hroot, walkTrie_cons,
      show walkStep starNodeRoot none "com" = some (starNodeExample, some starNodeRoot)
        from rfl]
  show walkTrie starNodeExample (some starNodeRoot) ["example", (⟨M⟩ : String)] = true
  rw [walkTrie_cons,
      show walkStep starNodeExample (some starNodeRoot) "example"
          = some (starNodeStar, some starNodeExample) from rfl]
  show walkTrie starNodeStar (some starNodeExample) [(⟨M⟩ : String)] = true
  have hne : ("*" : String) ≠ ⟨M⟩ := by
    intro he
    have hdat : ('*' :: ([] : List Char)) = M := congrArg String.data he
    rw [← hdat] at hstar
    exact hstar (List.mem_cons_self '*' [])
  have hfM : starNodeStar.find ⟨M⟩ = none := by
    show Node.findEntry ⟨M⟩ [("*", starNodeBang)] = none
    rw [Node.findEntry, if_neg hne]
    rfl
  have hstepM : walkStep starNodeStar (some starNodeExample) ⟨M⟩
      = some (starNodeBang, none) := by
    unfold walkStep
    rw [hfM]
    rfl
  rw [walkTrie_cons, hstepM]
  show walkTrie starNodeBang none [] = true
  rfl

/-- C6. With only the wildcard pattern *.example.com stored, every name made
of one legal label (letters, digits, or hyphens, 1 to 63 characters, the
label shape the spec defines) in front of .example.com is contained, while
example.com itself is not: the wildcard matches exactly one nonempty label
and never zero additional levels. -/
theorem wildcard_matches_exactly_one_label (L : String)
    (hlen : 1 ≤ L.data.length) (hlen63 : L.data.length ≤ 63)
    (hchars : ∀ c ∈ L.data, c.isAlpha = true ∨ c.isDigit = true ∨ c = '-') :
    starTrie.Contains (L ++ ".example.com") = true ∧
    starTrie.Contains "example.com" = false := by
  refine ⟨?_, by decide⟩
  have hMchars : ∀ c ∈ L.data.map lowerChar, c ≠ '.' ∧ c ≠ '!' ∧ c ≠ '*' := by
    intro c hc
    obtain ⟨c0, hc0, rfl⟩ := List.mem_map.mp hc
    exact lowerChar_label_ne (hchars c0 hc0)
  apply contains_star_example (L ++ ".example.com") (L.data.map lowerChar)
  · unfold lowerString
    show (⟨(L.data ++ ".example.com".data).map lowerChar⟩ : String) = _
    rw [List.map_append,
        show ".example.com".data.map lowerChar = ".example.com".data from by decide]
  · rw [List.length_map]
    exact hlen
  · rw [List.length_map]
    exact hlen63
  · intro hm
    exact (hMchars _ hm).1 rfl
  · intro hm
    exact (hMchars _ hm).2.1 rfl
  · intro hm
    exact (hMchars _ hm).2.2 rfl

/-- Witness for C6 at the concrete label of the spec example. -/
theorem wildcard_matches_exactly_one_label_witness :
    (1 ≤ ("anything" : String).data.length ∧
     ("anything" : String).data.length ≤ 63 ∧
     ∀ c ∈ ("anything" : String).data, c.isAlpha = true ∨ c.isDigit = true ∨ c = '-') ∧
    starTrie.Contains ("anything" ++ ".example.com") = true ∧
    starTrie.Contains "example.com" = false :=
  ⟨⟨by decide, by decide, by decide⟩,
    wildcard_matches_exactly_one_label "anything" (by decide) (by decide) (by decide)⟩

end MyDNS
